import Mathlib

/-!
Shallow embedding of `mkc64tap.py`, a generator of C64 `.TAP` cassette
images.  Pure byte/pulse values are modelled as `Nat`; Python byte
strings and text become `List Nat` of character codes (ASCII range for
the labels).  `struct.pack`/`struct.unpack` failures and other Python
exceptions are modelled with `Option`: `none` means the Python code
raises before returning.  The string functions (`str.upper`, the
in-place character loop of `petscii`) are modelled with the list
semantics the script relies on (mutable list of character codes).
-/

set_option maxRecDepth 100000

/-- Pulse duration codes, `PULSE_S`/`PULSE_M`/`PULSE_L` in the source. -/
def PULSE_S : Nat := 0x30

def PULSE_M : Nat := 0x42

def PULSE_L : Nat := 0x56

/-- `encbit`: a 1-bit becomes `[PULSE_M, PULSE_S]`, a 0-bit
`[PULSE_S, PULSE_M]` (Python truthiness of the bit value). -/
def encbit (bit : Nat) : List Nat :=
  if bit ≠ 0 then [PULSE_M, PULSE_S] else [PULSE_S, PULSE_M]

/-- The eight bits of a byte, least significant first, as extracted by
`(c >> b) & 1` for `b in range(8)`. -/
def byteBits (c : Nat) : List Nat :=
  (List.range 8).map fun b => c >>> b &&& 1

/-- The pulses `encbytes` emits for one input byte: the data marker
`[PULSE_L, PULSE_M]`, the eight encoded bits, then the check bit
accumulated from 1 by XOR over the bits. -/
def encByte (c : Nat) : List Nat :=
  [PULSE_L, PULSE_M]
    ++ (byteBits c).flatMap encbit
    ++ encbit ((byteBits c).foldl (fun a b => a ^^^ b) 1)

/-- `encbytes`: encode a list of bytes into pulses. -/
def encbytes (data : List Nat) : List Nat :=
  data.flatMap encByte

/-- ASCII upper-casing of one character code (models `str.upper` on the
ASCII text the tool handles). -/
def upperAscii (c : Nat) : Nat :=
  if 97 ≤ c ∧ c ≤ 122 then c - 32 else c

/-- `petscii`: upper-case, then the loop
`if ord('A') <= c >= ord('Z'): text[i] += 32`.  Python chains the
comparison as `65 <= c and c >= 90`, so every character code that is at
least `ord('Z')` after upper-casing gains 32.  (Under the Python 2 list
semantics of `map` that the script was written for.) -/
def petscii (text : List Nat) : List Nat :=
  (text.map upperAscii).map fun c => if 65 ≤ c ∧ 90 ≤ c then c + 32 else c

/-- XOR of a byte list, accumulated from 0 (`checkbyte` loops in the
source). -/
def xorBytes (l : List Nat) : Nat :=
  l.foldl (fun a c => a ^^^ c) 0

/-- The 192 bytes of a CBM block header before the check byte: type,
little-endian start and end address, PETSCII label of the first 16
characters of the name, space padding to 16 when the name is shorter,
and a 171-byte space body. -/
def header_core (t addr_start addr_end : Nat) (filename : List Nat) : List Nat :=
  [t, addr_start % 256, addr_start / 256, addr_end % 256, addr_end / 256]
    ++ petscii (filename.take 16)
    ++ (if filename.length < 16 then List.replicate (16 - filename.length) 32 else [])
    ++ List.replicate 171 32

/-- `make_header`: the header bytes followed by their XOR check byte.
`struct.pack("<H", x)` raises for `x ≥ 0x10000`, hence the guard. -/
def make_header (t addr_start addr_end : Nat) (filename : List Nat) : Option (List Nat) :=
  if addr_start < 65536 ∧ addr_end < 65536 then
    some (header_core t addr_start addr_end filename
      ++ [xorBytes (header_core t addr_start addr_end filename)])
  else none

/-- The header sync countdown `range(0x89, 0x80, -1)`. -/
def headerSync : List Nat := [0x89, 0x88, 0x87, 0x86, 0x85, 0x84, 0x83, 0x82, 0x81]

/-- The repeated-block sync countdown `range(9, 0, -1)`. -/
def repSync : List Nat := [9, 8, 7, 6, 5, 4, 3, 2, 1]

/-- `make_end_of_tape`: sync, type-5 header, end-of-data marker, gap,
repeated sync and header, end-of-data marker, trailer. -/
def make_end_of_tape : List Nat :=
  encbytes headerSync
    ++ encbytes ((make_header 5 0 0 []).getD [])
    ++ [PULSE_L, PULSE_S]
    ++ List.replicate 0x4f PULSE_S
    ++ encbytes repSync
    ++ encbytes ((make_header 5 0 0 []).getD [])
    ++ [PULSE_L, PULSE_S]
    ++ List.replicate 0x388 PULSE_S

/-- The per-file pulse stream `read_file` builds once the header exists:
recording marker bytes, leader, sync, header, end-of-data, gap, repeated
sync and header, end-of-data, gap, second recording marker, second
leader, data sync, data with its XOR check byte, end-of-data, gap,
repeated data sync and data, end-of-data, trailer. -/
def prg_stream (header data : List Nat) : List Nat :=
  [0x00, 0x14, 0x00, 0x05]
    ++ List.replicate 0x6a00 PULSE_S
    ++ encbytes headerSync
    ++ encbytes header
    ++ [PULSE_L, PULSE_S]
    ++ List.replicate 0x4f PULSE_S
    ++ encbytes repSync
    ++ encbytes header
    ++ [PULSE_L, PULSE_S]
    ++ List.replicate 0x4e PULSE_S
    ++ [0x00, 0x14, 0x00, 0x05]
    ++ List.replicate 0x1500 PULSE_S
    ++ encbytes headerSync
    ++ encbytes data
    ++ encbytes [xorBytes data]
    ++ [PULSE_L, PULSE_S]
    ++ List.replicate 0x4f PULSE_S
    ++ encbytes repSync
    ++ encbytes data
    ++ encbytes [xorBytes data]
    ++ [PULSE_L, PULSE_S]
    ++ List.replicate 0x388 PULSE_S

/-- `read_file` without the filesystem read: takes the display name and
the raw file bytes.  `struct.unpack("<H", data[:2])` raises when the
buffer is shorter than two bytes; `filename.index(".")` raises when the
name has no dot; `make_header` raises when the end address overflows
16 bits. -/
def read_file (filename : List Nat) (file : List Nat) : Option (List Nat) :=
  match file with
  | b0 :: b1 :: data =>
    if 46 ∈ filename then
      match make_header 3 (b0 + 256 * b1) (b0 + 256 * b1 + data.length + 1)
          (filename.takeWhile fun c => c ≠ 46) with
      | some header => some (prg_stream header data)
      | none => none
    else none
  | _ => none

/-- The end address `read_file` derives from a buffer (load address plus
data length plus one); 0 for buffers too short to carry a load
address. -/
def file_end_addr (file : List Nat) : Nat :=
  match file with
  | b0 :: b1 :: data => b0 + 256 * b1 + data.length + 1
  | _ => 0

/-- `write_header`: TAP signature, version 1, three reserved zero bytes
and the little-endian 32-bit length (`struct.pack("<I", ...)` raises at
2^32). -/
def write_header (data_len : Nat) : Option (List Nat) :=
  if data_len < 4294967296 then
    some ([67, 54, 52, 45, 84, 65, 80, 69, 45, 82, 65, 87]
      ++ [1] ++ [0, 0, 0]
      ++ [data_len % 256, data_len / 256 % 256,
          data_len / 65536 % 256, data_len / 16777216 % 256])
  else none

/-- The `main` loop `for filename in args.file: data.extend(read_file(filename))`:
each input is a (name, bytes) pair; any exception aborts the run. -/
def encode_all : List (List Nat × List Nat) → Option (List Nat)
  | [] => some []
  | f :: fs =>
    match read_file f.1 f.2, encode_all fs with
    | some e, some rest => some (e ++ rest)
    | _, _ => none

/-- The full output file `main` writes: TAP header with `len(data)`,
then the concatenated per-file streams, then the end-of-tape block. -/
def main_output (files : List (List Nat × List Nat)) : Option (List Nat) :=
  match encode_all files with
  | some data =>
    match write_header data.length with
    | some hd => some (hd ++ data ++ make_end_of_tape)
    | none => none
  | none => none

/-- Decode a 4-byte little-endian field. -/
def le32_value (l : List Nat) : Nat :=
  match l with
  | [a, b, c, d] => a + 256 * b + 65536 * c + 16777216 * d
  | _ => 0

/-- A byte is one of the three pulse duration codes. -/
def isPulse (p : Nat) : Prop :=
  p = PULSE_S ∨ p = PULSE_M ∨ p = PULSE_L

/-- The label field written by the spec's words: name truncated to at
most 16 characters, upper-cased, right-padded with spaces to exactly 16
bytes.  Second definition for the refinement comparison with the
source's `petscii`-based field. -/
def specLabelField (name : List Nat) : List Nat :=
  (name.take 16).map upperAscii ++ List.replicate (16 - min 16 name.length) 32

/-! ### Length lemmas -/

theorem encbit_length (b : Nat) : (encbit b).length = 2 := by
  unfold encbit; split <;> rfl

theorem flatMap_encbit_length (l : List Nat) : (l.flatMap encbit).length = 2 * l.length := by
  induction l with
  | nil => rfl
  | cons a t ih =>
    simp only [List.flatMap_cons, List.length_append, encbit_length, ih, List.length_cons]
    omega

theorem byteBits_length (c : Nat) : (byteBits c).length = 8 := by
  simp [byteBits]

theorem encByte_length (c : Nat) : (encByte c).length = 20 := by
  rw [encByte, List.length_append, List.length_append, flatMap_encbit_length,
    byteBits_length, encbit_length]
  rfl

theorem encbytes_length (l : List Nat) : (encbytes l).length = 20 * l.length := by
  induction l with
  | nil => rfl
  | cons a t ih =>
    simp only [encbytes, List.flatMap_cons, List.length_append, List.length_cons] at *
    simp [encByte_length, ih]
    omega

theorem petscii_length (t : List Nat) : (petscii t).length = t.length := by
  simp [petscii]

theorem header_core_length (t s e : Nat) (n : List Nat) :
    (header_core t s e n).length = 192 := by
  by_cases h : n.length < 16 <;>
    simp [header_core, h, petscii_length, List.length_take] <;> omega

theorem make_header_eq {s e : Nat} (t : Nat) (n : List Nat)
    (hs : s < 65536) (he : e < 65536) :
    make_header t s e n
      = some (header_core t s e n ++ [xorBytes (header_core t s e n)]) := by
  simp [make_header, hs, he]

theorem read_file_eq (name : List Nat) (b0 b1 : Nat) (rest : List Nat)
    (hdot : 46 ∈ name) (haddr : b0 + 256 * b1 + rest.length + 1 < 65536) :
    read_file name (b0 :: b1 :: rest)
      = some (prg_stream
          (header_core 3 (b0 + 256 * b1) (b0 + 256 * b1 + rest.length + 1)
              (name.takeWhile fun c => c ≠ 46)
            ++ [xorBytes (header_core 3 (b0 + 256 * b1) (b0 + 256 * b1 + rest.length + 1)
              (name.takeWhile fun c => c ≠ 46))])
          rest) := by
  have hs : b0 + 256 * b1 < 65536 := by omega
  simp [read_file, hdot, make_header_eq _ _ hs haddr]

theorem prg_stream_length (h d : List Nat) :
    (prg_stream h d).length = 34428 + 40 * h.length + 40 * d.length := by
  unfold prg_stream
  repeat rw [List.length_append]
  rw [encbytes_length, encbytes_length, encbytes_length, encbytes_length, encbytes_length]
  simp only [List.length_replicate, List.length_cons, List.length_nil,
    headerSync, repSync]
  omega

theorem make_end_of_tape_length : make_end_of_tape.length = 9067 := by
  have h5 := make_header_eq (s := 0) (e := 0) 5 [] (by omega) (by omega)
  unfold make_end_of_tape
  rw [h5, Option.getD_some]
  repeat rw [List.length_append]
  rw [encbytes_length, encbytes_length, encbytes_length]
  rw [List.length_append, header_core_length]
  simp only [List.length_replicate, List.length_cons, List.length_nil,
    headerSync, repSync]

/-! ### XOR and pulse-alphabet lemmas -/

theorem foldl_xor_shift (l : List Nat) (i : Nat) :
    l.foldl (fun a b => a ^^^ b) i = i ^^^ l.foldl (fun a b => a ^^^ b) 0 := by
  induction l generalizing i with
  | nil => simp
  | cons c t ih =>
    simp only [List.foldl_cons]
    rw [ih (i ^^^ c), ih (0 ^^^ c), Nat.zero_xor, Nat.xor_assoc]

theorem encbit_pulse {b p : Nat} (h : p ∈ encbit b) : isPulse p := by
  by_cases hb : b ≠ 0
  · rw [encbit, if_pos hb] at h
    simp only [List.mem_cons, List.not_mem_nil, or_false] at h
    rcases h with h | h <;> simp [isPulse, h]
  · rw [encbit, if_neg hb] at h
    simp only [List.mem_cons, List.not_mem_nil, or_false] at h
    rcases h with h | h <;> simp [isPulse, h]

theorem encbytes_pulse {l : List Nat} {p : Nat} (h : p ∈ encbytes l) : isPulse p := by
  simp only [encbytes, List.mem_flatMap] at h
  obtain ⟨c, _, hc⟩ := h
  simp only [encByte, List.mem_append, List.mem_cons, List.not_mem_nil, or_false,
    List.mem_flatMap] at hc
  rcases hc with ((h | h) | ⟨b, _, hb⟩) | h
  · simp [isPulse, h]
  · simp [isPulse, h]
  · exact encbit_pulse hb
  · exact encbit_pulse h

theorem replicate_pulse {n p q : Nat} (hq : isPulse q)
    (h : p ∈ List.replicate n q) : isPulse p := by
  rw [List.mem_replicate] at h
  exact h.2 ▸ hq

theorem eod_pulse {p : Nat} (h : p ∈ ([PULSE_L, PULSE_S] : List Nat)) : isPulse p := by
  simp only [List.mem_cons, List.not_mem_nil, or_false] at h
  rcases h with h | h <;> simp [isPulse, h]

theorem byte_marker_pulse {p : Nat} (h : p ∈ ([PULSE_L, PULSE_M] : List Nat)) : isPulse p := by
  simp only [List.mem_cons, List.not_mem_nil, or_false] at h
  rcases h with h | h <;> simp [isPulse, h]

theorem short_replicate_pulse {n p : Nat} (h : p ∈ List.replicate n PULSE_S) : isPulse p :=
  replicate_pulse (Or.inl rfl) h

theorem append_pulse {a b : List Nat} (ha : ∀ p ∈ a, isPulse p) (hb : ∀ p ∈ b, isPulse p) :
    ∀ p ∈ a ++ b, isPulse p := by
  intro p hp
  rcases List.mem_append.mp hp with h | h
  · exact ha p h
  · exact hb p h

theorem drop5_cons (a b c d e : Nat) (L : List Nat) :
    ((([a, b, c, d, e] : List Nat)) ++ L).drop 5 = L := rfl

/-- The 16-byte label region of a finished header block (bytes 5..20). -/
theorem header_label_field (t s e x : Nat) (name : List Nat) :
    ((header_core t s e name ++ [x]).drop 5).take 16
      = petscii (name.take 16)
        ++ (if name.length < 16 then List.replicate (16 - name.length) 32 else []) := by
  have hsplit : header_core t s e name ++ [x]
      = [t, s % 256, s / 256, e % 256, e / 256]
        ++ ((petscii (name.take 16)
            ++ (if name.length < 16 then List.replicate (16 - name.length) 32 else []))
          ++ (List.replicate 171 32 ++ [x])) := by
    simp [header_core, List.append_assoc]
  have hlen : (petscii (name.take 16)
      ++ (if name.length < 16 then List.replicate (16 - name.length) 32 else [])).length
        = 16 := by
    by_cases hc : name.length < 16 <;>
      simp [hc, petscii_length, List.length_take, List.length_replicate] <;> omega
  rw [hsplit, drop5_cons, List.take_left' hlen]

/-! ### Claim theorems -/

/-- Claim C8: `encbit` is total and deterministic (it is a function),
maps the 1-bit to the ordered pair (MEDIUM, SHORT) and the 0-bit to
(SHORT, MEDIUM), and the two encodings differ. -/
theorem c8_encbit_encoding :
    encbit 1 = [PULSE_M, PULSE_S] ∧ encbit 0 = [PULSE_S, PULSE_M]
      ∧ encbit 1 ≠ encbit 0 := by
  decide

/-- Claim C2, counterexample: the block produced by `make_header` has
193 bytes (192 header bytes plus the appended check byte), not 192 as
the claim states.  Shown at block type 3, addresses 0, empty label. -/
theorem c2_block_not_192_bytes :
    ((make_header 3 0 0 []).getD []).length = 193
      ∧ ((make_header 3 0 0 []).getD []).length ≠ 192 := by
  decide

/-- Claim C2, amended: for every block type, 16-bit start and end
address and label, `make_header` yields a 193-byte record whose final
byte is the XOR of all 192 preceding bytes. -/
theorem c2_checksum_of_header (t s e : Nat) (name : List Nat)
    (hs : s < 65536) (he : e < 65536) :
    ∃ h, make_header t s e name = some h
      ∧ h.length = 193
      ∧ h.dropLast.length = 192
      ∧ h.getLast? = some (xorBytes h.dropLast) := by
  refine ⟨_, make_header_eq t name hs he, ?_, ?_, ?_⟩
  · rw [List.length_append, header_core_length]
    rfl
  · rw [List.dropLast_concat, header_core_length]
  · rw [List.dropLast_concat, List.getLast?_concat]

theorem c2_checksum_of_header_witness :
    ∃ h, make_header 3 0 0 [] = some h
      ∧ h.length = 193
      ∧ h.dropLast.length = 192
      ∧ h.getLast? = some (xorBytes h.dropLast) :=
  c2_checksum_of_header 3 0 0 [] (by decide) (by decide)

/-- Claim C3, counterexample: a 2-byte input with a name that has no
dot makes `read_file` raise (`filename.index(".")`), so the encoding is
not total over all names. -/
theorem c3_fails_without_dot :
    read_file [65, 66] [0, 8] = none ∧ ([0, 8] : List Nat).length = 2 := by
  decide

/-- Claim C3, amended: per-file encoding succeeds (and is a pure
function of the inputs) whenever the input has at least 2 bytes, the
name contains a dot, and the derived end address fits 16 bits. -/
theorem c3_total_on_wellformed (name : List Nat) (b0 b1 : Nat) (rest : List Nat)
    (hdot : 46 ∈ name) (haddr : b0 + 256 * b1 + rest.length + 1 < 65536) :
    ∃ out, read_file name (b0 :: b1 :: rest) = some out :=
  ⟨_, read_file_eq name b0 b1 rest hdot haddr⟩

theorem c3_total_on_wellformed_witness :
    ∃ out, read_file [65, 46] (0 :: 8 :: []) = some out :=
  c3_total_on_wellformed [65, 46] 0 8 [] (by decide) (by decide)

/-- Claim C4, counterexample: for the one-character label "Z" the label
field holds 122 (the code remaps `ord('Z') = 90` to 122 because the
chained comparison fires for every character at least `ord('Z')`), while
the spec's upper-case-and-pad field holds 90 — the remap is not a no-op
after upper-casing. -/
theorem c4_remap_changes_Z :
    (((make_header 3 0 0 [90]).getD []).drop 5).take 16 ≠ specLabelField [90]
      ∧ (((make_header 3 0 0 [90]).getD []).drop 5).take 16 = 122 :: List.replicate 15 32
      ∧ specLabelField [90] = 90 :: List.replicate 15 32 := by
  decide

/-- Claim C4, amended: the label field is exactly 16 bytes, equal to the
name truncated to 16 characters, upper-cased, remapped (every character
code at least 90 after upper-casing gains 32), and space-padded; when no
character of the truncated upper-cased label reaches code 90 the remap
is a no-op and the field equals the spec's truncate/upper-case/pad
field. -/
theorem c4_label_field (t s e : Nat) (name : List Nat)
    (hs : s < 65536) (he : e < 65536) :
    ∃ h, make_header t s e name = some h
      ∧ ((h.drop 5).take 16).length = 16
      ∧ (h.drop 5).take 16
          = petscii (name.take 16)
            ++ (if name.length < 16 then List.replicate (16 - name.length) 32 else [])
      ∧ ((∀ c ∈ (name.take 16).map upperAscii, c < 90)
          → (h.drop 5).take 16 = specLabelField name) := by
  have hfield := header_label_field t s e (xorBytes (header_core t s e name)) name
  refine ⟨_, make_header_eq t name hs he, ?_, hfield, ?_⟩
  · rw [hfield]
    by_cases hc : name.length < 16 <;>
      simp [hc, petscii_length, List.length_take, List.length_replicate] <;> omega
  · intro hz
    rw [hfield, specLabelField]
    have h1 : ∀ c ∈ (name.take 16).map upperAscii,
        (if 65 ≤ c ∧ 90 ≤ c then c + 32 else c) = id c := by
      intro c hc
      have hlt := hz c hc
      rw [if_neg (by omega)]
      rfl
    have hmap : petscii (name.take 16) = (name.take 16).map upperAscii := by
      rw [petscii, List.map_congr_left h1, List.map_id]
    rw [hmap]
    congr 1
    by_cases hc : name.length < 16
    · rw [if_pos hc]
      congr 1
      omega
    · rw [if_neg hc, show 16 - min 16 name.length = 0 by omega, List.replicate_zero]

theorem c4_label_field_witness :
    ∃ h, make_header 3 0 0 [84, 69, 83, 84] = some h
      ∧ ((h.drop 5).take 16).length = 16
      ∧ (h.drop 5).take 16
          = petscii (([84, 69, 83, 84] : List Nat).take 16)
            ++ (if ([84, 69, 83, 84] : List Nat).length < 16
                then List.replicate (16 - ([84, 69, 83, 84] : List Nat).length) 32 else [])
      ∧ ((∀ c ∈ (([84, 69, 83, 84] : List Nat).take 16).map upperAscii, c < 90)
          → (h.drop 5).take 16 = specLabelField [84, 69, 83, 84]) :=
  c4_label_field 3 0 0 [84, 69, 83, 84] (by decide) (by decide)

/-- Claim C5, counterexample: in the run for the 2-byte input
`[0x00, 0x08]` with name "A." the encoded header block region has
`193 * 20 = 3860` pulses, not `192 * 20 + 4` as claimed, and the data
block region (data plus check byte) has `(n + 1) * 20` pulses, not
`(n + 1) * 20 + 4`. -/
theorem c5_block_region_sizes :
    (encbytes ((make_header 3 2048 2049 [65]).getD [])).length = 3860
      ∧ (3860 : Nat) ≠ 192 * 20 + 4
      ∧ (encbytes ([] : List Nat) ++ encbytes [xorBytes []]).length = 20
      ∧ (20 : Nat) ≠ (0 + 1) * 20 + 4 := by
  have h := make_header_eq (s := 2048) (e := 2049) 3 [65] (by omega) (by omega)
  refine ⟨?_, by decide, by decide, by decide⟩
  rw [h, Option.getD_some, encbytes_length, List.length_append, header_core_length]
  rfl

/-- Claim C5, amended: for every well-formed input the per-file pulse
stream length is the closed form `42148 + 40 * n` in the program byte
count `n`: the fixed regions sum to 34428 pulses, each of the two
header blocks contributes `193 * 20` pulses and each of the two data
blocks `(n + 1) * 20` pulses. -/
theorem c5_stream_length_closed_form (name : List Nat) (b0 b1 : Nat) (rest : List Nat)
    (hdot : 46 ∈ name) (haddr : b0 + 256 * b1 + rest.length + 1 < 65536) :
    (read_file name (b0 :: b1 :: rest)).map List.length
      = some (42148 + 40 * rest.length) := by
  rw [read_file_eq name b0 b1 rest hdot haddr, Option.map_some', prg_stream_length,
    List.length_append, header_core_length]
  simp only [List.length_cons, List.length_nil, Option.some.injEq]

theorem c5_stream_length_closed_form_witness :
    (read_file [65, 46] (0 :: 8 :: ([] : List Nat))).map List.length = some 42148
    ∧ (read_file [65, 46] (0 :: 8 :: ([0] : List Nat))).map List.length = some 42188
    ∧ (read_file [65, 46] (0 :: 8 :: List.replicate 254 0)).map List.length = some 52308
    ∧ (read_file [65, 46] (0 :: 8 :: List.replicate 1000 0)).map List.length = some 82148 := by
  refine ⟨?_, ?_, ?_, ?_⟩
  · simpa using c5_stream_length_closed_form [65, 46] 0 8 [] (by decide) (by decide)
  · simpa using c5_stream_length_closed_form [65, 46] 0 8 [0] (by decide) (by decide)
  · simpa using c5_stream_length_closed_form [65, 46] 0 8 (List.replicate 254 0)
      (by decide) (by simp)
  · simpa using c5_stream_length_closed_form [65, 46] 0 8 (List.replicate 1000 0)
      (by decide) (by simp)

/-- Claim C6: `encbytes` emits exactly 20 pulses per input byte, one
independent 20-pulse chunk per byte: 2 marker pulses (LONG, MEDIUM),
then the 16 pulses of bit positions 0 (least significant) through 7,
then the 2-pulse parity pair, which is the bit-encoding of
`1 XOR (XOR of all 8 bits)`. -/
theorem c6_encbytes_structure (data : List Nat) :
    (encbytes data).length = 20 * data.length
      ∧ (∀ c, encbytes (c :: data) = encByte c ++ encbytes data)
      ∧ ∀ c, (encByte c).take 2 = [PULSE_L, PULSE_M]
          ∧ ((encByte c).drop 2).take 16 = (byteBits c).flatMap encbit
          ∧ (encByte c).drop 18 = encbit (1 ^^^ xorBytes (byteBits c)) := by
  refine ⟨encbytes_length data, fun c => rfl, fun c => ⟨rfl, ?_, ?_⟩⟩
  · have hb : ((byteBits c).flatMap encbit).length = 16 := by
      rw [flatMap_encbit_length, byteBits_length]
    have h2 : (encByte c).drop 2
        = (byteBits c).flatMap encbit
          ++ encbit ((byteBits c).foldl (fun a b => a ^^^ b) 1) := rfl
    rw [h2, List.take_left' hb]
  · have hb : ((byteBits c).flatMap encbit).length = 16 := by
      rw [flatMap_encbit_length, byteBits_length]
    have h18 : (encByte c).drop 18
        = ((byteBits c).flatMap encbit
            ++ encbit ((byteBits c).foldl (fun a b => a ^^^ b) 1)).drop 16 := rfl
    rw [h18, List.drop_left' hb, foldl_xor_shift]
    rfl

/-- Claim C7, counterexample: the 2-byte input `[0xFF, 0xFF]` with the
dotted name "A." still fails (`struct.pack("<H", ...)` raises because
the derived end address is 0x10000), so too-short input is not the only
error condition. -/
theorem c7_error_not_only_short_input :
    read_file [65, 46] [255, 255] = none
      ∧ ¬ (([255, 255] : List Nat).length < 2) := by
  decide

/-- Claim C7, amended: for byte-valued inputs, per-file encoding fails
exactly when the buffer is shorter than 2 bytes, or the name has no
dot, or the derived end address does not fit in 16 bits; on failure no
pulse stream is returned at all (the `Option` result carries either the
whole stream or nothing). -/
theorem c7_failure_characterisation (name file : List Nat)
    (hbytes : ∀ b ∈ file, b < 256) :
    read_file name file = none
      ↔ (file.length < 2 ∨ 46 ∉ name ∨ 65536 ≤ file_end_addr file) := by
  match file with
  | [] => simp [read_file, file_end_addr]
  | [b] => simp [read_file, file_end_addr]
  | b0 :: b1 :: rest =>
    have h0 : b0 < 256 := hbytes b0 (by simp)
    have h1 : b1 < 256 := hbytes b1 (by simp)
    by_cases hdot : 46 ∈ name
    · by_cases hover : 65536 ≤ b0 + 256 * b1 + rest.length + 1
      · have hmk : ∀ nm : List Nat, make_header 3 (b0 + 256 * b1)
            (b0 + 256 * b1 + rest.length + 1) nm = none := by
          intro nm
          rw [make_header, if_neg]
          omega
        simp [read_file, file_end_addr, hdot, hmk, hover]
      · have hmk : ∀ nm : List Nat, ∃ h, make_header 3 (b0 + 256 * b1)
            (b0 + 256 * b1 + rest.length + 1) nm = some h := fun nm =>
          ⟨_, make_header_eq (s := b0 + 256 * b1)
            (e := b0 + 256 * b1 + rest.length + 1) 3 nm (by omega) (by omega)⟩
        obtain ⟨h, hh⟩ := hmk (name.takeWhile fun c => c ≠ 46)
        simp only [read_file, file_end_addr, if_pos hdot, hh]
        simp [hdot]
        omega
    · simp [read_file, file_end_addr, hdot]

theorem c7_failure_characterisation_witness :
    read_file [65, 46] [255, 255] = none
      ↔ (([255, 255] : List Nat).length < 2 ∨ 46 ∉ ([65, 46] : List Nat)
          ∨ 65536 ≤ file_end_addr [255, 255]) :=
  c7_failure_characterisation [65, 46] [255, 255] (by decide)

/-- Claim C9: the end-of-tape stream is built from a type-5 header with
start and end address 0 and an empty label (16 space bytes), encoded
twice — first after the 0x89..0x81 sync, then after the 9..1 sync —
with no data region and a 0x388-pulse SHORT trailer; and every
successful run writes it exactly once, after the concatenated per-file
streams and never before them. -/
theorem c9_end_of_tape :
    (∃ h, make_header 5 0 0 [] = some h
      ∧ h.take 5 = [5, 0, 0, 0, 0]
      ∧ (h.drop 5).take 16 = List.replicate 16 32
      ∧ make_end_of_tape
          = encbytes headerSync ++ encbytes h ++ [PULSE_L, PULSE_S]
            ++ List.replicate 0x4f PULSE_S
            ++ encbytes repSync ++ encbytes h ++ [PULSE_L, PULSE_S]
            ++ List.replicate 0x388 PULSE_S)
    ∧ ∀ files data, encode_all files = some data
        → main_output files
          = (write_header data.length).map fun hd => hd ++ data ++ make_end_of_tape := by
  constructor
  · exact ⟨(make_header 5 0 0 []).getD [], rfl, rfl, rfl, rfl⟩
  · intro files data h
    rw [main_output, h]
    rcases hw : write_header data.length with _ | hd <;> simp [hw]

theorem c9_end_of_tape_witness :
    main_output []
      = (write_header (([] : List Nat)).length).map
          fun hd => hd ++ ([] : List Nat) ++ make_end_of_tape :=
  c9_end_of_tape.2 [] [] rfl

/-- Claim C10: every successful per-file stream is the 4-byte recording
marker, a pulse-only region, the 0x4E-pulse gap, the second 4-byte
recording marker, the 0x1500-pulse second leader and a final pulse-only
region — so every byte outside the two literal markers is one of the
three pulse codes (a marker byte 0x00/0x14/0x05 is not a pulse code, so
no further marker can occur inside the pulse-only regions); and the
end-of-tape stream consists solely of pulse codes. -/
theorem c10_pulse_alphabet (name file out : List Nat)
    (h : read_file name file = some out) :
    (∃ A B, out = [0x00, 0x14, 0x00, 0x05] ++ A
        ++ List.replicate 0x4e PULSE_S
        ++ [0x00, 0x14, 0x00, 0x05]
        ++ List.replicate 0x1500 PULSE_S ++ B
      ∧ (∀ p ∈ A, isPulse p)
      ∧ (∀ p ∈ List.replicate 0x4e PULSE_S, isPulse p)
      ∧ (∀ p ∈ List.replicate 0x1500 PULSE_S, isPulse p)
      ∧ (∀ p ∈ B, isPulse p))
    ∧ ∀ p ∈ make_end_of_tape, isPulse p := by
  constructor
  · match file with
    | [] => exact absurd h (by simp [read_file])
    | [b] => exact absurd h (by simp [read_file])
    | b0 :: b1 :: rest =>
      rw [read_file] at h
      by_cases hdot : 46 ∈ name
      · rw [if_pos hdot] at h
        rcases hmk : make_header 3 (b0 + 256 * b1) (b0 + 256 * b1 + rest.length + 1)
            (name.takeWhile fun c => c ≠ 46) with _ | hdr
        · rw [hmk] at h
          exact absurd h (by simp)
        · rw [hmk] at h
          have hout : out = prg_stream hdr rest := by
            simpa using h.symm
          refine ⟨List.replicate 0x6a00 PULSE_S ++ encbytes headerSync
              ++ encbytes hdr ++ [PULSE_L, PULSE_S] ++ List.replicate 0x4f PULSE_S
              ++ encbytes repSync ++ encbytes hdr ++ [PULSE_L, PULSE_S],
            encbytes headerSync ++ encbytes rest ++ encbytes [xorBytes rest]
              ++ [PULSE_L, PULSE_S] ++ List.replicate 0x4f PULSE_S
              ++ encbytes repSync ++ encbytes rest ++ encbytes [xorBytes rest]
              ++ [PULSE_L, PULSE_S] ++ List.replicate 0x388 PULSE_S,
            ?_, ?_, ?_, ?_, ?_⟩
          · rw [hout]
            simp only [prg_stream, List.append_assoc]
          · exact append_pulse (append_pulse (append_pulse (append_pulse
              (append_pulse (append_pulse (append_pulse
                (fun p hp => short_replicate_pulse hp)
                (fun p hp => encbytes_pulse hp))
                (fun p hp => encbytes_pulse hp))
                (fun p hp => eod_pulse hp))
                (fun p hp => short_replicate_pulse hp))
                (fun p hp => encbytes_pulse hp))
                (fun p hp => encbytes_pulse hp))
                (fun p hp => eod_pulse hp)
          · exact fun p hp => short_replicate_pulse hp
          · exact fun p hp => short_replicate_pulse hp
          · exact append_pulse (append_pulse (append_pulse (append_pulse
              (append_pulse (append_pulse (append_pulse (append_pulse
                (append_pulse
                  (fun p hp => encbytes_pulse hp)
                  (fun p hp => encbytes_pulse hp))
                  (fun p hp => encbytes_pulse hp))
                  (fun p hp => eod_pulse hp))
                  (fun p hp => short_replicate_pulse hp))
                  (fun p hp => encbytes_pulse hp))
                  (fun p hp => encbytes_pulse hp))
                  (fun p hp => encbytes_pulse hp))
                  (fun p hp => eod_pulse hp))
                  (fun p hp => short_replicate_pulse hp)
      · rw [if_neg hdot] at h
        exact absurd h (by simp)
  · rw [make_end_of_tape]
    exact append_pulse (append_pulse (append_pulse (append_pulse
      (append_pulse (append_pulse (append_pulse
        (fun p hp => encbytes_pulse hp)
        (fun p hp => encbytes_pulse hp))
        (fun p hp => eod_pulse hp))
        (fun p hp => short_replicate_pulse hp))
        (fun p hp => encbytes_pulse hp))
        (fun p hp => encbytes_pulse hp))
        (fun p hp => eod_pulse hp))
        (fun p hp => short_replicate_pulse hp)

theorem c10_pulse_alphabet_witness :
    (∃ A B, (read_file [65, 46] [0, 8]).getD []
        = [0x00, 0x14, 0x00, 0x05] ++ A
          ++ List.replicate 0x4e PULSE_S
          ++ [0x00, 0x14, 0x00, 0x05]
          ++ List.replicate 0x1500 PULSE_S ++ B
      ∧ (∀ p ∈ A, isPulse p)
      ∧ (∀ p ∈ List.replicate 0x4e PULSE_S, isPulse p)
      ∧ (∀ p ∈ List.replicate 0x1500 PULSE_S, isPulse p)
      ∧ (∀ p ∈ B, isPulse p))
    ∧ ∀ p ∈ make_end_of_tape, isPulse p :=
  c10_pulse_alphabet [65, 46] [0, 8] ((read_file [65, 46] [0, 8]).getD []) rfl

/-- Claim C1: refuted by the code — `main` computes the length field
from the per-file data only and then writes the 9067-byte end-of-tape
block after it as part of the payload.  For the run with no input
files the length field decodes to 0 while 9067 payload bytes follow
the 20-byte container header. -/
theorem c1_length_field_excludes_end_of_tape :
    ∃ out, main_output [] = some out
      ∧ le32_value ((out.drop 16).take 4) = 0
      ∧ (out.drop 20).length = 9067
      ∧ le32_value ((out.drop 16).take 4) ≠ (out.drop 20).length := by
  refine ⟨_, rfl, rfl, ?_, ?_⟩
  · show make_end_of_tape.length = 9067
    exact make_end_of_tape_length
  · show (0 : Nat) ≠ make_end_of_tape.length
    rw [make_end_of_tape_length]
    decide
